import Mathlib

/-!
Shallow embedding of the mrosupply-scraper components that the verified
properties talk about:

* `retry_manager.py` — `RetryItem`, `SmartRetryManager` (priority retry queue
  with exponential backoff).
* `adaptive_rate.py` — `AdaptiveRateLimiter` (delay / worker-count adjustment).
* `proxy_manager.py` — `ProxyManager` (rotation and quarantine of proxies).
* `scraper_rotating_residential.py` — checkpoint loading and URL dispatch.
* `utils/signal_handlers.py` — `GracefulShutdown` signal state machine.

Python floats (timestamps, delays) are modelled as rationals; Python ints as
Lean integers.  `heapq` heaps are modelled as lists carrying the same
multiset of items, with `heappush` appending and `heappop` removing the
(leftmost) minimal element under the `dataclass(order=True)` ordering, which
compares only the fields `priority` and `next_retry_time`.
-/

namespace MroScraper

/-! ## retry_manager.py -/

/-- Item in the retry queue (`RetryItem` dataclass).  The Python `metadata`
dict is modelled as an association list of strings. -/
structure RetryItem where
  priority : ℤ
  next_retry_time : ℚ
  url : String
  attempt : ℤ
  error_type : String
  error_message : String
  first_attempt_time : ℚ
  metadata : List (String × String)
deriving DecidableEq

/-- The `dataclass(order=True)` comparison key: only `priority` and
`next_retry_time` take part in ordering (and in equality). -/
def RetryItem.key (i : RetryItem) : ℤ × ℚ := (i.priority, i.next_retry_time)

/-- Lexicographic order on the comparison key, as Python compares the tuple
of compare-enabled fields. -/
def kle (a b : RetryItem) : Prop :=
  a.priority < b.priority ∨ (a.priority = b.priority ∧ a.next_retry_time ≤ b.next_retry_time)

instance (a b : RetryItem) : Decidable (kle a b) := by
  unfold kle; infer_instance

theorem kle_refl (a : RetryItem) : kle a a := Or.inr ⟨rfl, le_refl _⟩

theorem kle_trans {a b c : RetryItem} (h₁ : kle a b) (h₂ : kle b c) : kle a c := by
  rcases h₁ with h₁ | ⟨e₁, l₁⟩ <;> rcases h₂ with h₂ | ⟨e₂, l₂⟩
  · exact Or.inl (h₁.trans h₂)
  · exact Or.inl (e₂ ▸ h₁)
  · exact Or.inl (e₁ ▸ h₂)
  · exact Or.inr ⟨e₁.trans e₂, l₁.trans l₂⟩

theorem kle_total (a b : RetryItem) : kle a b ∨ kle b a := by
  rcases lt_trichotomy a.priority b.priority with h | h | h
  · exact Or.inl (Or.inl h)
  · rcases le_total a.next_retry_time b.next_retry_time with h₂ | h₂
    · exact Or.inl (Or.inr ⟨h, h₂⟩)
    · exact Or.inr (Or.inr ⟨h.symm, h₂⟩)
  · exact Or.inr (Or.inl h)

/-- Check that `sub` occurs at the very start of `s` (on character lists). -/
def subAt : List Char → List Char → Bool
  | [], _ => true
  | _ :: _, [] => false
  | c :: cs, d :: ds => c = d && subAt cs ds

/-- Check that `sub` occurs somewhere in `s` (on character lists). -/
def containsAux (sub : List Char) : List Char → Bool
  | [] => subAt sub []
  | d :: ds => subAt sub (d :: ds) || containsAux sub ds

/-- Substring containment, as Python `sub in s`. -/
def strContains (s sub : String) : Bool := containsAux sub.data s.data

/-- Lower-casing, as Python `str.lower()` on the ASCII error-type names. -/
def lowerStr (s : String) : String := String.mk (s.data.map Char.toLower)

/-- Error priority levels (`SmartRetryManager.ERROR_PRIORITIES`);
lower number means higher priority. -/
def ERROR_PRIORITIES : String → Option ℤ
  | "rate_limit" => some 1
  | "server_error" => some 2
  | "timeout" => some 3
  | "connection" => some 4
  | "client_error" => some 5
  | "parse_error" => some 6
  | "validation" => some 7
  | "not_found" => some 10
  | "unknown" => some 8
  | _ => none

/-- Base delays for exponential backoff (`SmartRetryManager.BASE_DELAYS`),
in seconds. -/
def BASE_DELAYS : String → Option ℚ
  | "rate_limit" => some 60
  | "server_error" => some 30
  | "timeout" => some 30
  | "connection" => some 60
  | "client_error" => some 120
  | "parse_error" => some 60
  | "validation" => some 120
  | "not_found" => some 300
  | "unknown" => some 60
  | _ => none

def MAX_ATTEMPTS : ℤ := 5

/-- Source `SmartRetryManager._normalize_error_type`: maps a raw error-type string to
one of the nine standard categories.  `et.take 1` models the Python slice
`error_type_lower[:1]`. -/
def normalize_error_type (error_type : String) : String :=
  let et := lowerStr error_type
  if strContains et "429" || strContains et "rate" then "rate_limit"
  else if strContains (et.take 1) "5" || strContains et "server" then "server_error"
  else if strContains et "timeout" then "timeout"
  else if strContains et "connection" || strContains et "network" then "connection"
  else if strContains et "404" || strContains et "not found" then "not_found"
  else if strContains (et.take 1) "4" then "client_error"
  else if strContains et "parse" then "parse_error"
  else if strContains et "validation" then "validation"
  else "unknown"

/-- Mutable state of `SmartRetryManager`.  The `heapq` heap `retry_queue` is
modelled as the list of its items; `urls_in_queue` (a Python set of strings)
as a `Finset`; the two `defaultdict(int)` statistics as total functions. -/
structure RetryState where
  retry_queue : List RetryItem
  urls_in_queue : Finset String
  total_retries : ℕ
  successful_retries : ℕ
  failed_retries : ℕ
  error_counts : String → ℕ
  retry_counts_by_attempt : ℤ → ℕ

/-- Fresh manager, as built by `SmartRetryManager.__init__`. -/
def initRetryState : RetryState :=
  { retry_queue := []
    urls_in_queue := ∅
    total_retries := 0
    successful_retries := 0
    failed_retries := 0
    error_counts := fun _ => 0
    retry_counts_by_attempt := fun _ => 0 }

/-- Source `SmartRetryManager.add_retry`.  `now` stands for `time.time()` at the
moment of the call.  Returns the new state and the boolean result. -/
def add_retry (s : RetryState) (now : ℚ) (url error_type error_message : String)
    (attempt : ℤ) (metadata : Option (List (String × String))) : RetryState × Bool :=
  if MAX_ATTEMPTS ≤ attempt then
    ({ s with failed_retries := s.failed_retries + 1 }, false)
  else if url ∈ s.urls_in_queue then
    (s, false)
  else
    let et := normalize_error_type error_type
    -- dict .get with default: the unknown entry of ERROR_PRIORITIES, which is 8
    let priority := (ERROR_PRIORITIES et).getD 8
    let base_delay := (BASE_DELAYS et).getD 60
    -- delay = base_delay * (2 ** (attempt - 1)), capped at 1800 s (30 min)
    let delay := min (base_delay * (2 : ℚ) ^ (attempt - 1)) 1800
    let item : RetryItem :=
      { priority := priority
        next_retry_time := now + delay
        url := url
        attempt := attempt
        error_type := et
        error_message := error_message
        first_attempt_time := now
        metadata := metadata.getD [] }
    ({ s with
        retry_queue := s.retry_queue ++ [item]
        urls_in_queue := insert url s.urls_in_queue
        total_retries := s.total_retries + 1
        error_counts := fun k => if k = et then s.error_counts k + 1 else s.error_counts k
        retry_counts_by_attempt := fun a =>
          if a = attempt then s.retry_counts_by_attempt a + 1
          else s.retry_counts_by_attempt a },
     true)

/-- Removal of a minimal element (under the dataclass order) from the heap,
as `heapq.heappop`: returns the popped item and the remaining items. -/
def popMin : List RetryItem → Option (RetryItem × List RetryItem)
  | [] => none
  | x :: xs =>
    match popMin xs with
    | none => some (x, xs)
    | some (m, rest) => if kle x m then some (x, xs) else some (m, x :: rest)

/-- The pop loop of `SmartRetryManager.get_next_batch`: repeatedly pop the
top of the heap while the batch is not full; a popped item whose
`next_retry_time` has passed joins the batch, otherwise the loop stops.
Returns (ready items in pop order, the not-ready item that stopped the loop
if any, remaining heap).  `temp_removed` of the Python code is recovered as
the ready items followed by the stopping item. -/
def batchLoop (now : ℚ) : ℕ → List RetryItem → List RetryItem × Option RetryItem × List RetryItem
  | 0, q => ([], none, q)
  | bs + 1, q =>
    match popMin q with
    | none => ([], none, q)
    | some (m, rest) =>
      if m.next_retry_time ≤ now then
        let r := batchLoop now bs rest
        (m :: r.1, r.2.1, r.2.2)
      else ([], some m, rest)

/-- Source `SmartRetryManager.get_next_batch`.  Ready items leave the queue and the
URL set; items of `temp_removed` not equal (by the dataclass `__eq__`, i.e.
by `key`) to a ready item are pushed back. -/
def get_next_batch (s : RetryState) (now : ℚ) (batch_size : ℕ) :
    RetryState × List RetryItem :=
  let r := batchLoop now batch_size s.retry_queue
  let ready := r.1
  let temp_removed := ready ++ r.2.1.toList
  let push_back := temp_removed.filter (fun i => ! ready.any (fun x => x.key == i.key))
  ({ s with
      retry_queue := r.2.2 ++ push_back
      urls_in_queue := ready.foldl (fun st i => st.erase i.url) s.urls_in_queue },
   ready)

/-- Source `SmartRetryManager.remove_url`: rebuild the queue without the URL. -/
def remove_url (s : RetryState) (url : String) : RetryState × Bool :=
  if url ∈ s.urls_in_queue then
    ({ s with
        retry_queue := s.retry_queue.filter (fun i => i.url ≠ url)
        urls_in_queue := s.urls_in_queue.erase url },
     true)
  else (s, false)

/-- Source `SmartRetryManager.clear_queue`. -/
def clear_queue (s : RetryState) : RetryState :=
  { s with retry_queue := [], urls_in_queue := ∅ }

/-! ### Heap-pop lemmas -/

theorem popMin_cons_ne_none (x : RetryItem) (xs : List RetryItem) :
    popMin (x :: xs) ≠ none := by
  unfold popMin
  cases h : popMin xs with
  | none => simp
  | some p => obtain ⟨m, rest⟩ := p; dsimp; split <;> simp

theorem popMin_eq_none {l : List RetryItem} (h : popMin l = none) : l = [] := by
  cases l with
  | nil => rfl
  | cons x xs => exact absurd h (popMin_cons_ne_none x xs)

theorem popMin_perm {l : List RetryItem} {m : RetryItem} {rest : List RetryItem}
    (h : popMin l = some (m, rest)) : l.Perm (m :: rest) := by
  induction l generalizing m rest with
  | nil => simp [popMin] at h
  | cons x xs ih =>
    unfold popMin at h
    cases hx : popMin xs with
    | none =>
      rw [hx] at h
      simp only [Option.some.injEq, Prod.mk.injEq] at h
      obtain ⟨rfl, rfl⟩ := h
      exact List.Perm.refl _
    | some p =>
      obtain ⟨m', rest'⟩ := p
      rw [hx] at h
      dsimp at h
      split at h
      · simp only [Option.some.injEq, Prod.mk.injEq] at h
        obtain ⟨rfl, rfl⟩ := h
        exact List.Perm.refl _
      · simp only [Option.some.injEq, Prod.mk.injEq] at h
        obtain ⟨rfl, rfl⟩ := h
        exact ((ih hx).cons x).trans (List.Perm.swap m' x rest')

theorem popMin_min {l : List RetryItem} {m : RetryItem} {rest : List RetryItem}
    (h : popMin l = some (m, rest)) : ∀ y ∈ l, kle m y := by
  induction l generalizing m rest with
  | nil => simp [popMin] at h
  | cons x xs ih =>
    unfold popMin at h
    cases hx : popMin xs with
    | none =>
      rw [hx] at h
      simp only [Option.some.injEq, Prod.mk.injEq] at h
      obtain ⟨rfl, rfl⟩ := h
      have hxs := popMin_eq_none hx
      subst hxs
      intro y hy
      simp only [List.mem_singleton] at hy
      subst hy
      exact kle_refl _
    | some p =>
      obtain ⟨m', rest'⟩ := p
      rw [hx] at h
      dsimp at h
      split at h
      case isTrue hk =>
        simp only [Option.some.injEq, Prod.mk.injEq] at h
        obtain ⟨rfl, rfl⟩ := h
        intro y hy
        rcases List.mem_cons.mp hy with rfl | hy
        · exact kle_refl _
        · exact kle_trans hk (ih hx y hy)
      case isFalse hk =>
        simp only [Option.some.injEq, Prod.mk.injEq] at h
        obtain ⟨rfl, rfl⟩ := h
        intro y hy
        rcases List.mem_cons.mp hy with rfl | hy
        · exact (kle_total _ _).resolve_left hk
        · exact ih hx y hy

theorem popMin_length {l : List RetryItem} {m : RetryItem} {rest : List RetryItem}
    (h : popMin l = some (m, rest)) : l.length = rest.length + 1 :=
  (popMin_perm h).length_eq

/-! ### Batch-loop lemmas -/

/-- Combined behaviour of the pop loop: the batch is bounded by
`batch_size`, holds only eligible items, the stopping item is not eligible,
the queue contents are preserved as a multiset, the batch comes out sorted
by the dataclass order, and every batch item precedes (in that order)
everything left behind. -/
theorem batchLoop_spec (now : ℚ) :
    ∀ (bs : ℕ) (q : List RetryItem),
      (batchLoop now bs q).1.length ≤ bs ∧
      (∀ x ∈ (batchLoop now bs q).1, x.next_retry_time ≤ now) ∧
      (∀ b ∈ (batchLoop now bs q).2.1, ¬ b.next_retry_time ≤ now) ∧
      q.Perm ((batchLoop now bs q).1 ++ (batchLoop now bs q).2.1.toList ++ (batchLoop now bs q).2.2) ∧
      (batchLoop now bs q).1.Pairwise kle ∧
      (∀ x ∈ (batchLoop now bs q).1,
        ∀ y ∈ (batchLoop now bs q).2.1.toList ++ (batchLoop now bs q).2.2, kle x y) := by
  intro bs
  induction bs with
  | zero =>
    intro q
    refine ⟨Nat.le_refl 0, by simp [batchLoop], by simp [batchLoop], by simp [batchLoop], ?_, by simp [batchLoop]⟩
    simp only [batchLoop]
    exact List.Pairwise.nil
  | succ bs ih =>
    intro q
    cases hp : popMin q with
    | none =>
      have hq := popMin_eq_none hp
      subst hq
      have hres : batchLoop now (bs + 1) [] = ([], none, []) := rfl
      rw [hres]
      exact ⟨Nat.zero_le _, by simp, by simp, by simp, List.Pairwise.nil, by simp⟩
    | some p =>
      obtain ⟨m, rest⟩ := p
      have hperm := popMin_perm hp
      have hmin := popMin_min hp
      rcases hbl : batchLoop now bs rest with ⟨r1, rb, rq⟩
      obtain ⟨ihlen, ihel, ihbr, ihperm, ihsort, ihdom⟩ := ih rest
      rw [hbl] at ihlen ihel ihbr ihperm ihsort ihdom
      dsimp only at ihlen ihel ihbr ihperm ihsort ihdom
      have hmem_q : ∀ y ∈ rest, y ∈ q := fun y hy =>
        hperm.symm.subset (List.mem_cons_of_mem m hy)
      by_cases hel : m.next_retry_time ≤ now
      · have hres : batchLoop now (bs + 1) q = (m :: r1, rb, rq) := by
          unfold batchLoop
          rw [hp]
          dsimp only
          rw [if_pos hel, hbl]
        rw [hres]
        dsimp only
        have hmem_rem : ∀ y ∈ r1 ++ rb.toList ++ rq, y ∈ rest := fun y hy =>
          ihperm.symm.subset hy
        refine ⟨Nat.succ_le_succ ihlen, ?_, ihbr, ?_, ?_, ?_⟩
        · intro x hx
          rcases List.mem_cons.mp hx with rfl | hx
          · exact hel
          · exact ihel x hx
        · exact hperm.trans (ihperm.cons m)
        · refine List.Pairwise.cons ?_ ihsort
          intro y hy
          exact hmin y (hmem_q y (hmem_rem y (List.mem_append.mpr
            (Or.inl (List.mem_append.mpr (Or.inl hy))))))
        · intro x hx y hy
          rcases List.mem_cons.mp hx with rfl | hx
          · refine hmin y (hmem_q y (hmem_rem y ?_))
            rcases List.mem_append.mp hy with h | h
            · exact List.mem_append.mpr (Or.inl (List.mem_append.mpr (Or.inr h)))
            · exact List.mem_append.mpr (Or.inr h)
          · exact ihdom x hx y hy
      · have hres : batchLoop now (bs + 1) q = ([], some m, rest) := by
          unfold batchLoop
          rw [hp]
          dsimp only
          rw [if_neg hel]
        rw [hres]
        dsimp only
        refine ⟨Nat.zero_le _, by simp, ?_, ?_, List.Pairwise.nil, by simp⟩
        · intro b hb
          simp only [Option.mem_def, Option.some.injEq] at hb
          subst hb
          exact hel
        · simpa using hperm

/-- When every queued item is eligible, the loop never stops early: it
returns exactly `min batch_size (queue length)` items. -/
theorem batchLoop_all_ready (now : ℚ) :
    ∀ (bs : ℕ) (q : List RetryItem), (∀ x ∈ q, x.next_retry_time ≤ now) →
      (batchLoop now bs q).2.1 = none ∧ (batchLoop now bs q).1.length = min bs q.length := by
  intro bs
  induction bs with
  | zero => intro q _; simp [batchLoop]
  | succ bs ih =>
    intro q hall
    cases hp : popMin q with
    | none =>
      have hq := popMin_eq_none hp
      subst hq
      have hres : batchLoop now (bs + 1) [] = ([], none, []) := rfl
      rw [hres]
      simp
    | some p =>
      obtain ⟨m, rest⟩ := p
      have hperm := popMin_perm hp
      have hm : m.next_retry_time ≤ now :=
        hall m (hperm.symm.subset (List.mem_cons_self m rest))
      have hrest : ∀ x ∈ rest, x.next_retry_time ≤ now :=
        fun x hx => hall x (hperm.symm.subset (List.mem_cons_of_mem m hx))
      rcases hbl : batchLoop now bs rest with ⟨r1, rb, rq⟩
      obtain ⟨ihnone, ihlen⟩ := ih rest hrest
      rw [hbl] at ihnone ihlen
      dsimp only at ihnone ihlen
      have hres : batchLoop now (bs + 1) q = (m :: r1, rb, rq) := by
        unfold batchLoop
        rw [hp]
        dsimp only
        rw [if_pos hm, hbl]
      rw [hres]
      dsimp only
      have hlen : q.length = rest.length + 1 := popMin_length hp
      exact ⟨ihnone, by simp only [List.length_cons, ihlen, hlen, Nat.succ_min_succ]⟩

/-! ### Characterization of get_next_batch -/

/-- The push-back filter drops exactly the ready items: everything equal (by
the dataclass key) to a batch member is dropped, everything else survives. -/
theorem filter_key_append (r1 extra : List RetryItem)
    (h : ∀ b ∈ extra, ∀ x ∈ r1, x.key ≠ b.key) :
    (r1 ++ extra).filter (fun i => ! r1.any (fun x => x.key == i.key)) = extra := by
  rw [List.filter_append]
  have h1 : r1.filter (fun i => ! r1.any (fun x => x.key == i.key)) = [] := by
    rw [List.filter_eq_nil_iff]
    intro i hi
    simp only [Bool.not_eq_true', Bool.not_eq_false, List.any_eq_true, beq_iff_eq]
    exact ⟨i, hi, rfl⟩
  have h2 : extra.filter (fun i => ! r1.any (fun x => x.key == i.key)) = extra := by
    rw [List.filter_eq_self]
    intro b hb
    have hfalse : r1.any (fun x => x.key == b.key) = false := by
      rw [List.any_eq_false]
      intro x hx
      simp only [beq_iff_eq]
      exact h b hb x hx
    simp [hfalse]
  rw [h1, h2, List.nil_append]

/-- Erasing the URLs of a list of items from a finset, one at a time, is set
difference with the collected URLs. -/
theorem foldl_erase_eq (l : List RetryItem) (s : Finset String) :
    l.foldl (fun st i => st.erase i.url) s = s \ (l.map RetryItem.url).toFinset := by
  induction l generalizing s with
  | nil => simp
  | cons x xs ih =>
    rw [List.foldl_cons, ih, Finset.erase_eq]
    rw [sdiff_sdiff]
    congr 1
    rw [List.map_cons, List.toFinset_cons, Finset.insert_eq, Finset.sup_eq_union]

/-- What `get_next_batch` computes, in terms of the pop loop: the returned
batch is the ready list of the loop, the new queue is the remaining heap plus the
pushed-back stopping item, and exactly the batch URLs leave the URL set. -/
theorem get_next_batch_eq (s : RetryState) (now : ℚ) (bs : ℕ) :
    (get_next_batch s now bs).2 = (batchLoop now bs s.retry_queue).1 ∧
    (get_next_batch s now bs).1.retry_queue =
      (batchLoop now bs s.retry_queue).2.2 ++ (batchLoop now bs s.retry_queue).2.1.toList ∧
    (get_next_batch s now bs).1.urls_in_queue =
      s.urls_in_queue \ ((batchLoop now bs s.retry_queue).1.map RetryItem.url).toFinset := by
  obtain ⟨-, hel, hbr, -, -, -⟩ := batchLoop_spec now bs s.retry_queue
  have hkey : ∀ b ∈ (batchLoop now bs s.retry_queue).2.1.toList,
      ∀ x ∈ (batchLoop now bs s.retry_queue).1, RetryItem.key x ≠ RetryItem.key b := by
    intro b hb x hx hcontra
    have hb' : b ∈ (batchLoop now bs s.retry_queue).2.1 := by
      cases hopt : (batchLoop now bs s.retry_queue).2.1 with
      | none => rw [hopt] at hb; simp at hb
      | some c =>
        rw [hopt] at hb
        simp only [Option.toList_some, List.mem_singleton] at hb
        subst hb
        exact Option.mem_some_iff.mpr rfl
    have : x.next_retry_time = b.next_retry_time :=
      congrArg Prod.snd hcontra
    exact hbr b hb' (this ▸ hel x hx)
  refine ⟨rfl, ?_, ?_⟩
  · show (batchLoop now bs s.retry_queue).2.2 ++
        ((batchLoop now bs s.retry_queue).1 ++ (batchLoop now bs s.retry_queue).2.1.toList).filter
          (fun i => ! (batchLoop now bs s.retry_queue).1.any (fun x => x.key == i.key)) = _
    rw [filter_key_append _ _ hkey]
  · show (batchLoop now bs s.retry_queue).1.foldl (fun st i => st.erase i.url) s.urls_in_queue = _
    exact foldl_erase_eq _ _

/-! ### Operation sequences over the retry manager -/

/-- The public operations of `SmartRetryManager` that touch the queue and
the URL-tracking set, each carrying the wall-clock time of the call. -/
inductive RetryOp where
  | add (now : ℚ) (url error_type error_message : String) (attempt : ℤ)
      (metadata : Option (List (String × String)))
  | batch (now : ℚ) (batch_size : ℕ)
  | remove (url : String)
  | clear

/-- One operation applied to a manager state. -/
def retryStep (s : RetryState) : RetryOp → RetryState
  | .add now url et em a md => (add_retry s now url et em a md).1
  | .batch now bs => (get_next_batch s now bs).1
  | .remove url => (remove_url s url).1
  | .clear => clear_queue s

/-- State of the manager after a sequence of operations on a fresh manager. -/
def runRetry (ops : List RetryOp) : RetryState := ops.foldl retryStep initRetryState

/-- The tracking invariant: the queue never holds two entries for one URL,
and `urls_in_queue` is exactly the set of URLs of queued items. -/
def RetryInv (s : RetryState) : Prop :=
  (s.retry_queue.map RetryItem.url).Nodup ∧
  s.urls_in_queue = (s.retry_queue.map RetryItem.url).toFinset

theorem retryStep_inv {s : RetryState} (op : RetryOp) (h : RetryInv s) :
    RetryInv (retryStep s op) := by
  obtain ⟨hnd, hset⟩ := h
  cases op with
  | add now url et em a md =>
    show RetryInv (add_retry s now url et em a md).1
    unfold add_retry
    split
    · exact ⟨hnd, hset⟩
    · split
      · exact ⟨hnd, hset⟩
      case isFalse hmem =>
        have hnotin : url ∉ s.retry_queue.map RetryItem.url := by
          intro hcon
          exact hmem (hset ▸ List.mem_toFinset.mpr hcon)
        constructor
        · simp only [List.map_append, List.map_cons, List.map_nil]
          rw [List.nodup_append]
          refine ⟨hnd, List.nodup_singleton _, ?_⟩
          intro u hu hu2
          simp only [List.mem_singleton] at hu2
          subst hu2
          exact hnotin hu
        · simp only [List.map_append, List.map_cons, List.map_nil, List.toFinset_append,
            List.toFinset_cons, List.toFinset_nil]
          rw [hset]
          ext u
          simp [or_comm]
  | batch now bs =>
    show RetryInv (get_next_batch s now bs).1
    obtain ⟨-, hq, hu⟩ := get_next_batch_eq s now bs
    obtain ⟨-, -, -, hperm, -, -⟩ := batchLoop_spec now bs s.retry_queue
    have hperm2 : s.retry_queue.Perm
        ((batchLoop now bs s.retry_queue).1 ++ (get_next_batch s now bs).1.retry_queue) := by
      rw [hq]
      refine hperm.trans ?_
      rw [List.append_assoc]
      exact (List.Perm.append_left _ (List.perm_append_comm))
    have hpermmap : (s.retry_queue.map RetryItem.url).Perm
        (((batchLoop now bs s.retry_queue).1.map RetryItem.url) ++
          ((get_next_batch s now bs).1.retry_queue.map RetryItem.url)) := by
      simpa using hperm2.map RetryItem.url
    have hnd2 := hpermmap.nodup_iff.mp hnd
    rw [List.nodup_append] at hnd2
    obtain ⟨hnd_r, hnd_q, hdisj⟩ := hnd2
    constructor
    · exact hnd_q
    · rw [hu, hset]
      have htf : (s.retry_queue.map RetryItem.url).toFinset =
          ((batchLoop now bs s.retry_queue).1.map RetryItem.url).toFinset ∪
            ((get_next_batch s now bs).1.retry_queue.map RetryItem.url).toFinset := by
        rw [← List.toFinset_append]
        exact List.toFinset_eq_of_perm _ _ hpermmap
      rw [htf]
      refine Finset.union_sdiff_cancel_left ?_
      rw [List.disjoint_toFinset_iff_disjoint]
      exact hdisj
  | remove url =>
    show RetryInv (remove_url s url).1
    unfold remove_url
    split
    case isTrue hmem =>
      have hmapfilter : (s.retry_queue.filter (fun i => i.url ≠ url)).map RetryItem.url =
          (s.retry_queue.map RetryItem.url).filter (fun u => u ≠ url) := by
        induction s.retry_queue with
        | nil => rfl
        | cons x xs ih =>
          by_cases hx : x.url = url
          · simpa [List.filter_cons, hx] using ih
          · simpa [List.filter_cons, hx] using ih
      constructor
      · dsimp only
        rw [hmapfilter]
        exact hnd.filter _
      · dsimp only
        rw [hmapfilter, hset, List.toFinset_filter]
        ext u
        simp [Finset.mem_erase, and_comm]
    · exact ⟨hnd, hset⟩
  | clear => exact ⟨List.nodup_nil, rfl⟩

theorem runRetry_inv (ops : List RetryOp) : RetryInv (runRetry ops) := by
  suffices h : ∀ (l : List RetryOp) (s : RetryState), RetryInv s → RetryInv (l.foldl retryStep s) by
    refine h ops initRetryState ⟨List.nodup_nil, by simp [initRetryState]⟩
  intro l
  induction l with
  | nil => intro s hs; exact hs
  | cons op l ih => intro s hs; exact ih _ (retryStep_inv op hs)

/-! ### Helper facts for the retry claims -/

theorem base_delay_isSome (et : String) :
    ∃ b : ℚ, BASE_DELAYS (normalize_error_type et) = some b := by
  unfold normalize_error_type
  dsimp only
  split
  · exact ⟨60, rfl⟩
  split
  · exact ⟨30, rfl⟩
  split
  · exact ⟨30, rfl⟩
  split
  · exact ⟨60, rfl⟩
  split
  · exact ⟨300, rfl⟩
  split
  · exact ⟨120, rfl⟩
  split
  · exact ⟨60, rfl⟩
  split
  · exact ⟨120, rfl⟩
  · exact ⟨60, rfl⟩

/-- A manager state holding one pending entry for URL u (as produced by a
first `add_retry(u, timeout, attempt=1)` at time 0). -/
def c1state : RetryState :=
  { retry_queue := [⟨3, 30, "u", 1, "timeout", "", 0, []⟩]
    urls_in_queue := {"u"}
    total_retries := 1
    successful_retries := 0
    failed_retries := 0
    error_counts := fun _ => 0
    retry_counts_by_attempt := fun _ => 0 }

/-- A high-priority rate-limit entry not yet eligible at time 350 (as
produced by `add_retry(u1, 429, attempt=4)` at time 0: delay 480 s). -/
def c2i1 : RetryItem := ⟨1, 480, "u1", 4, "rate_limit", "", 0, []⟩

/-- A low-priority not-found entry already eligible at time 350 (as produced
by `add_retry(u2, 404, attempt=1)` at time 0: delay 300 s). -/
def c2i2 : RetryItem := ⟨10, 300, "u2", 1, "not_found", "", 0, []⟩

/-- Queue holding both of the above entries. -/
def c2state : RetryState :=
  { retry_queue := [c2i1, c2i2]
    urls_in_queue := {"u1", "u2"}
    total_retries := 2
    successful_retries := 0
    failed_retries := 0
    error_counts := fun _ => 0
    retry_counts_by_attempt := fun _ => 0 }

/-! ### Claim theorems: retry manager -/

/-- Claim C1, counterexample.  With an entry for URL u pending (attempt 1,
error timeout, priority 3), a second `add_retry` for u with attempt 2 and a
rate-limit error is rejected (returns False) and the single pending entry
still carries the attempt count and priority of the FIRST call — not of the
latest call as the claim states. -/
theorem C1_reinsert_counterexample :
    (add_retry c1state 100 "u" "429" "" 2 none).2 = false ∧
    ((add_retry c1state 100 "u" "429" "" 2 none).1.retry_queue.map
      (fun i => (i.url, i.attempt, i.priority))) = [("u", 1, 3)] := by
  decide

/-- Claim C1, amended: re-insertion of a URL already pending is rejected —
`add_retry` returns False and leaves the manager state entirely unchanged,
so exactly one pending entry remains for that URL, carrying the attempt
count and priority of the ORIGINAL call (first wins; never duplicated). -/
theorem C1_reinsert_first_wins (s : RetryState) (now : ℚ)
    (url et em : String) (a : ℤ) (md : Option (List (String × String)))
    (hmem : url ∈ s.urls_in_queue) (hlt : a < MAX_ATTEMPTS) :
    add_retry s now url et em a md = (s, false) := by
  unfold add_retry
  rw [if_neg (not_le.mpr hlt), if_pos hmem]

/-- Witness for the amended claim C1 at a concrete pending state. -/
theorem C1_reinsert_first_wins_witness :
    add_retry c1state 100 "u" "429" "" 2 none = (c1state, false) :=
  C1_reinsert_first_wins c1state 100 "u" "429" "" 2 none (by decide) (by decide)

/-- Claim C2, counterexample.  At time 350, the not-found entry (priority
10, eligible since time 300) sits in the queue behind the not-yet-eligible
rate-limit entry (priority 1, eligible at 480).  `get_next_batch` stops at
the first non-ready item of the heap, so it returns an EMPTY batch even
though an eligible entry exists and the batch is not full — refuting the
claim that every eligible entry is returned when a higher-priority entry
with a later eligible time exists. -/
theorem C2_starvation_counterexample :
    c2i2 ∈ c2state.retry_queue ∧ c2i2.next_retry_time ≤ 350 ∧
    (10 : ℕ) ≠ 0 ∧
    (get_next_batch c2state 350 10).2 = [] := by
  decide

/-- Claim C2, amended: `get_next_batch(n)` returns up to n entries, all of
whose `next_retry_time` has passed, ordered by (priority, next_retry_time)
— in particular an eligible rate-limit entry never comes after a
simultaneously-eligible not-found entry in the returned order — and when
EVERY queued entry is eligible it returns min(n, queue size) entries; but
the scan stops at the first entry in heap order whose time has not passed,
so an eligible entry sitting behind a not-yet-eligible higher-priority
entry is not returned. -/
theorem C2_batch_order (s : RetryState) (now : ℚ) (bs : ℕ) :
    (get_next_batch s now bs).2.length ≤ bs ∧
    (∀ x ∈ (get_next_batch s now bs).2, x.next_retry_time ≤ now) ∧
    (get_next_batch s now bs).2.Pairwise kle ∧
    ((∀ x ∈ s.retry_queue, x.next_retry_time ≤ now) →
      (get_next_batch s now bs).2.length = min bs s.retry_queue.length) := by
  obtain ⟨hr, -, -⟩ := get_next_batch_eq s now bs
  obtain ⟨h1, h2, -, -, h5, -⟩ := batchLoop_spec now bs s.retry_queue
  rw [hr]
  exact ⟨h1, h2, h5, fun hall => (batchLoop_all_ready now bs s.retry_queue hall).2⟩

/-- Witness for the amended claim C2 on a concrete queue where both entries
are eligible: both are returned, rate-limit first. -/
theorem C2_batch_order_witness :
    (get_next_batch c2state 500 10).2.length ≤ 10 ∧
    (∀ x ∈ (get_next_batch c2state 500 10).2, x.next_retry_time ≤ 500) ∧
    (get_next_batch c2state 500 10).2.Pairwise kle ∧
    ((∀ x ∈ c2state.retry_queue, x.next_retry_time ≤ 500) →
      (get_next_batch c2state 500 10).2.length = min 10 c2state.retry_queue.length) :=
  C2_batch_order c2state 500 10

/-- Claim C7: for an accepted retry (attempt below the maximum, URL not
already pending), the enqueued entry becomes eligible exactly
`min(BASE_DELAYS[k] * 2^(attempt-1), 1800)` seconds after the call, where k
is the (normalized) error kind of the entry — exponential backoff with
per-kind base delay capped at 30 minutes. -/
theorem C7_backoff (s : RetryState) (now : ℚ) (url et em : String) (a : ℤ)
    (md : Option (List (String × String)))
    (_h1 : 1 ≤ a) (h2 : a < MAX_ATTEMPTS) (hmem : url ∉ s.urls_in_queue) :
    ∃ b : ℚ, BASE_DELAYS (normalize_error_type et) = some b ∧
      ∃ item : RetryItem,
        (add_retry s now url et em a md).1.retry_queue = s.retry_queue ++ [item] ∧
        item.url = url ∧ item.attempt = a ∧
        item.error_type = normalize_error_type et ∧
        item.next_retry_time - now = min (b * (2 : ℚ) ^ (a - 1)) 1800 := by
  obtain ⟨b, hb⟩ := base_delay_isSome et
  refine ⟨b, hb, ?_⟩
  unfold add_retry
  rw [if_neg (not_le.mpr h2), if_neg hmem]
  dsimp only
  refine ⟨_, rfl, rfl, rfl, rfl, ?_⟩
  dsimp only
  rw [hb]
  dsimp only [Option.getD]
  rw [add_sub_cancel_left]

/-- Witness for claim C7: first retry of a 429 error from a fresh manager. -/
theorem C7_backoff_witness :
    ∃ b : ℚ, BASE_DELAYS (normalize_error_type "429") = some b ∧
      ∃ item : RetryItem,
        (add_retry initRetryState 0 "u" "429" "" 1 none).1.retry_queue =
          initRetryState.retry_queue ++ [item] ∧
        item.url = "u" ∧ item.attempt = 1 ∧
        item.error_type = normalize_error_type "429" ∧
        item.next_retry_time - 0 = min (b * (2 : ℚ) ^ ((1 : ℤ) - 1)) 1800 :=
  C7_backoff initRetryState 0 "u" "429" "" 1 none (by decide) (by decide) (by decide)

/-- Claim C10: after any sequence of add_retry / get_next_batch /
remove_url / clear_queue operations on a fresh manager, the queue holds at
most one entry per URL and `urls_in_queue` is exactly the set of URLs of
the items currently in the retry heap. -/
theorem C10_url_tracking (ops : List RetryOp) :
    ((runRetry ops).retry_queue.map RetryItem.url).Nodup ∧
    (runRetry ops).urls_in_queue =
      ((runRetry ops).retry_queue.map RetryItem.url).toFinset :=
  runRetry_inv ops

/-! ## adaptive_rate.py -/

/-- Python `int()` applied to a rational: truncation toward zero. -/
def pyInt (q : ℚ) : ℤ := if 0 ≤ q then ⌊q⌋ else ⌈q⌉

def SLOW_DOWN_THRESHOLD : ℚ := 85 / 100
def SPEED_UP_THRESHOLD : ℚ := 95 / 100
def SLOWDOWN_DELAY_INCREASE : ℚ := 25 / 100
def SLOWDOWN_WORKER_DECREASE : ℚ := 10 / 100
def SPEEDUP_DELAY_DECREASE : ℚ := 10 / 100
def SPEEDUP_WORKER_INCREASE : ℚ := 5 / 100
def MIN_ADJUSTMENT_INTERVAL : ℚ := 300
def MAX_WORKER_MULTIPLIER : ℚ := 15 / 10
def MIN_WORKER_COUNT : ℤ := 1
def MIN_DELAY : ℚ := 1 / 10
def MAX_DELAY : ℚ := 5
def SAMPLE_SIZE : ℕ := 100

/-- Mutable state of `AdaptiveRateLimiter`.  The request history deque
holds (success, timestamp) pairs, most recent last, capped at
`SAMPLE_SIZE`. -/
structure RateState where
  initial_delay : ℚ
  initial_workers : ℤ
  current_delay : ℚ
  current_workers : ℤ
  request_history : List (Bool × ℚ)
  last_adjustment_time : ℚ
  adjustment_count : ℕ
  slowdown_count : ℕ
  speedup_count : ℕ
  total_requests : ℕ
  successful_requests : ℕ
  failed_requests : ℕ

/-- Constructor `AdaptiveRateLimiter.__init__`; `now` is `time.time()` at
construction (recorded as the last adjustment time). -/
def mkRateState (initial_delay : ℚ) (initial_workers : ℤ) (now : ℚ) : RateState :=
  { initial_delay := initial_delay
    initial_workers := initial_workers
    current_delay := initial_delay
    current_workers := initial_workers
    request_history := []
    last_adjustment_time := now
    adjustment_count := 0
    slowdown_count := 0
    speedup_count := 0
    total_requests := 0
    successful_requests := 0
    failed_requests := 0 }

/-- Append to a `deque(maxlen=n)`: old entries fall off the left. -/
def dequeAppend (n : ℕ) (l : List (Bool × ℚ)) (x : Bool × ℚ) : List (Bool × ℚ) :=
  let h := l ++ [x]
  h.drop (h.length - n)

/-- Source `AdaptiveRateLimiter.record_request`. -/
def record_request (s : RateState) (success : Bool) (now : ℚ) : RateState :=
  { s with
    request_history := dequeAppend SAMPLE_SIZE s.request_history (success, now)
    total_requests := s.total_requests + 1
    successful_requests := s.successful_requests + (if success then 1 else 0)
    failed_requests := s.failed_requests + (if success then 0 else 1) }

/-- Source `AdaptiveRateLimiter.should_adjust`. -/
def should_adjust (s : RateState) (now : ℚ) : Bool :=
  MIN_ADJUSTMENT_INTERVAL ≤ now - s.last_adjustment_time

/-- Source `AdaptiveRateLimiter.calculate_success_rate`: `None` below a
minimum sample of 10. -/
def calculate_success_rate (s : RateState) : Option ℚ :=
  if s.request_history.length < 10 then none
  else some (((s.request_history.filter (fun r => r.1)).length : ℚ) /
    (s.request_history.length : ℚ))

/-- Source `AdaptiveRateLimiter._slow_down`. -/
def slow_down (s : RateState) (now : ℚ) : RateState :=
  let delay1 := s.current_delay * (1 + SLOWDOWN_DELAY_INCREASE)
  let delay2 := min delay1 MAX_DELAY
  let new_workers := pyInt ((s.current_workers : ℚ) * (1 - SLOWDOWN_WORKER_DECREASE))
  { s with
    current_delay := delay2
    current_workers := max new_workers MIN_WORKER_COUNT
    last_adjustment_time := now
    adjustment_count := s.adjustment_count + 1
    slowdown_count := s.slowdown_count + 1 }

/-- Source `AdaptiveRateLimiter._speed_up`.  Note the early return: at the
worker cap with minimal delay the method changes nothing (and does not
touch the adjustment counters). -/
def speed_up (s : RateState) (now : ℚ) : RateState :=
  let max_workers := pyInt ((s.initial_workers : ℚ) * MAX_WORKER_MULTIPLIER)
  if max_workers ≤ s.current_workers ∧ s.current_delay ≤ MIN_DELAY then s
  else
    let delay1 := s.current_delay * (1 - SPEEDUP_DELAY_DECREASE)
    let delay2 := max delay1 MIN_DELAY
    let new_workers := pyInt ((s.current_workers : ℚ) * (1 + SPEEDUP_WORKER_INCREASE))
    { s with
      current_delay := delay2
      current_workers := min new_workers max_workers
      last_adjustment_time := now
      adjustment_count := s.adjustment_count + 1
      speedup_count := s.speedup_count + 1 }

/-- Source `AdaptiveRateLimiter.adjust_rate`.  Returns the new state and
the boolean result. -/
def adjust_rate (s : RateState) (now : ℚ) : RateState × Bool :=
  if ¬ should_adjust s now then (s, false)
  else
    match calculate_success_rate s with
    | none => (s, false)
    | some rate =>
      if rate < SLOW_DOWN_THRESHOLD then (slow_down s now, true)
      else if SPEED_UP_THRESHOLD < rate then (speed_up s now, true)
      else (s, false)

/-- Source `AdaptiveRateLimiter.force_slow_mode`. -/
def force_slow_mode (s : RateState) (now : ℚ) : RateState :=
  { s with
    current_delay := MAX_DELAY
    current_workers := MIN_WORKER_COUNT
    last_adjustment_time := now }

/-- The operations of claim C3 (and, without `forceSlow`, of claim C6). -/
inductive RateOp where
  | record (success : Bool) (now : ℚ)
  | adjust (now : ℚ)
  | forceSlow (now : ℚ)

def rateStep (s : RateState) : RateOp → RateState
  | .record success now => record_request s success now
  | .adjust now => (adjust_rate s now).1
  | .forceSlow now => force_slow_mode s now

def runRate (s : RateState) (ops : List RateOp) : RateState := ops.foldl rateStep s

/-! ### Rate limiter lemmas -/

theorem pyInt_of_nonneg {q : ℚ} (h : 0 ≤ q) : pyInt q = ⌊q⌋ := if_pos h

/-- Truncating `w * 0.9` never increases a nonnegative worker count. -/
theorem pyInt_slowdown_le {w : ℤ} (h : 0 ≤ w) :
    pyInt ((w : ℚ) * (1 - SLOWDOWN_WORKER_DECREASE)) ≤ w := by
  have hq : (0 : ℚ) ≤ (w : ℚ) * (1 - SLOWDOWN_WORKER_DECREASE) := by
    have : (0 : ℚ) ≤ (w : ℚ) := by exact_mod_cast h
    rw [SLOWDOWN_WORKER_DECREASE]
    nlinarith
  rw [pyInt_of_nonneg hq]
  have hle : (w : ℚ) * (1 - SLOWDOWN_WORKER_DECREASE) ≤ (w : ℚ) := by
    have : (0 : ℚ) ≤ (w : ℚ) := by exact_mod_cast h
    rw [SLOWDOWN_WORKER_DECREASE]
    nlinarith
  calc ⌊(w : ℚ) * (1 - SLOWDOWN_WORKER_DECREASE)⌋ ≤ ⌊(w : ℚ)⌋ := Int.floor_le_floor hle
    _ = w := Int.floor_intCast w

/-- Truncating `w * 1.05` never decreases a nonnegative worker count. -/
theorem pyInt_speedup_ge {w : ℤ} (h : 0 ≤ w) :
    w ≤ pyInt ((w : ℚ) * (1 + SPEEDUP_WORKER_INCREASE)) := by
  have hq : (0 : ℚ) ≤ (w : ℚ) * (1 + SPEEDUP_WORKER_INCREASE) := by
    have : (0 : ℚ) ≤ (w : ℚ) := by exact_mod_cast h
    rw [SPEEDUP_WORKER_INCREASE]
    nlinarith
  rw [pyInt_of_nonneg hq]
  rw [Int.le_floor]
  have : (0 : ℚ) ≤ (w : ℚ) := by exact_mod_cast h
  rw [SPEEDUP_WORKER_INCREASE]
  nlinarith

/-- For worker counts between 0 and 19, truncating `w * 1.05` gives back
exactly `w`. -/
theorem pyInt_speedup_eq {w : ℤ} (h0 : 0 ≤ w) (h19 : w ≤ 19) :
    pyInt ((w : ℚ) * (1 + SPEEDUP_WORKER_INCREASE)) = w := by
  have hw : (0 : ℚ) ≤ (w : ℚ) := by exact_mod_cast h0
  have hw19 : (w : ℚ) ≤ 19 := by exact_mod_cast h19
  have hq : (0 : ℚ) ≤ (w : ℚ) * (1 + SPEEDUP_WORKER_INCREASE) := by
    rw [SPEEDUP_WORKER_INCREASE]; nlinarith
  rw [pyInt_of_nonneg hq, Int.floor_eq_iff]
  constructor
  · rw [SPEEDUP_WORKER_INCREASE]; nlinarith
  · rw [SPEEDUP_WORKER_INCREASE]; nlinarith

/-- An initial pool of at least one worker yields a worker cap of at least
one, and at least the initial pool size. -/
theorem pyInt_cap_ge {w0 : ℤ} (h : 1 ≤ w0) :
    1 ≤ pyInt ((w0 : ℚ) * MAX_WORKER_MULTIPLIER) ∧
    w0 ≤ pyInt ((w0 : ℚ) * MAX_WORKER_MULTIPLIER) := by
  have hw : (1 : ℚ) ≤ (w0 : ℚ) := by exact_mod_cast h
  have hq : (0 : ℚ) ≤ (w0 : ℚ) * MAX_WORKER_MULTIPLIER := by
    rw [MAX_WORKER_MULTIPLIER]; nlinarith
  rw [pyInt_of_nonneg hq]
  constructor
  · rw [Int.le_floor]
    rw [MAX_WORKER_MULTIPLIER]; push_cast; nlinarith
  · rw [Int.le_floor]
    rw [MAX_WORKER_MULTIPLIER]; nlinarith

/-- The invariant of claim C3: delay within `[MIN_DELAY, MAX_DELAY]`,
worker count within `[MIN_WORKER_COUNT, int(initial_workers * 1.5)]`, for
an initial pool of at least one worker. -/
def RateInv (s : RateState) : Prop :=
  MIN_DELAY ≤ s.current_delay ∧ s.current_delay ≤ MAX_DELAY ∧
  MIN_WORKER_COUNT ≤ s.current_workers ∧
  s.current_workers ≤ pyInt ((s.initial_workers : ℚ) * MAX_WORKER_MULTIPLIER) ∧
  1 ≤ s.initial_workers

theorem slow_down_inv {s : RateState} (now : ℚ) (h : RateInv s) :
    RateInv (slow_down s now) := by
  obtain ⟨h1, h2, h3, h4, h5⟩ := h
  refine ⟨?_, ?_, ?_, ?_, h5⟩
  · refine le_min ?_ ?_
    · rw [MIN_DELAY] at h1 ⊢
      rw [SLOWDOWN_DELAY_INCREASE]
      nlinarith
    · rw [MIN_DELAY, MAX_DELAY]; norm_num
  · exact min_le_right _ _
  · exact le_max_right _ _
  · show max (pyInt ((s.current_workers : ℚ) * (1 - SLOWDOWN_WORKER_DECREASE))) MIN_WORKER_COUNT ≤ _
    refine max_le ?_ ?_
    · exact le_trans (pyInt_slowdown_le (le_trans (by norm_num [MIN_WORKER_COUNT]) h3)) h4
    · exact le_trans (by norm_num [MIN_WORKER_COUNT]) (pyInt_cap_ge h5).1

theorem speed_up_inv {s : RateState} (now : ℚ) (h : RateInv s) :
    RateInv (speed_up s now) := by
  obtain ⟨h1, h2, h3, h4, h5⟩ := h
  unfold speed_up
  dsimp only
  split
  · exact ⟨h1, h2, h3, h4, h5⟩
  · refine ⟨?_, ?_, ?_, ?_, h5⟩
    · exact le_max_right _ _
    · refine max_le ?_ ?_
      · rw [MAX_DELAY] at h2 ⊢
        rw [SPEEDUP_DELAY_DECREASE, MIN_DELAY] at *
        nlinarith
      · rw [MIN_DELAY, MAX_DELAY]; norm_num
    · show MIN_WORKER_COUNT ≤ min _ _
      refine le_min ?_ ?_
      · refine le_trans h3 ?_
        refine le_trans ?_ (pyInt_speedup_ge (le_trans (by norm_num [MIN_WORKER_COUNT]) h3))
        exact le_refl _
      · exact le_trans (by norm_num [MIN_WORKER_COUNT]) (pyInt_cap_ge h5).1
    · exact min_le_right _ _

theorem rateStep_inv {s : RateState} (op : RateOp) (h : RateInv s) :
    RateInv (rateStep s op) := by
  obtain ⟨h1, h2, h3, h4, h5⟩ := h
  cases op with
  | record success now => exact ⟨h1, h2, h3, h4, h5⟩
  | adjust now =>
    show RateInv (adjust_rate s now).1
    unfold adjust_rate
    split
    · exact ⟨h1, h2, h3, h4, h5⟩
    · cases hr : calculate_success_rate s with
      | none => exact ⟨h1, h2, h3, h4, h5⟩
      | some rate =>
        dsimp only
        split
        · exact slow_down_inv now ⟨h1, h2, h3, h4, h5⟩
        · split
          · exact speed_up_inv now ⟨h1, h2, h3, h4, h5⟩
          · exact ⟨h1, h2, h3, h4, h5⟩
  | forceSlow now =>
    refine ⟨?_, ?_, ?_, ?_, h5⟩
    · show MIN_DELAY ≤ MAX_DELAY
      rw [MIN_DELAY, MAX_DELAY]; norm_num
    · exact le_refl _
    · exact le_refl _
    · show MIN_WORKER_COUNT ≤ _
      exact le_trans (by norm_num [MIN_WORKER_COUNT]) (pyInt_cap_ge h5).1

theorem runRate_inv {s : RateState} (ops : List RateOp) (h : RateInv s) :
    RateInv (runRate s ops) := by
  induction ops generalizing s with
  | nil => exact h
  | cons op l ih => exact ih (rateStep_inv op h)

theorem rateStep_initial_workers (s : RateState) (op : RateOp) :
    (rateStep s op).initial_workers = s.initial_workers := by
  cases op with
  | record success now => rfl
  | adjust now =>
    show (adjust_rate s now).1.initial_workers = _
    unfold adjust_rate
    split
    · rfl
    · cases calculate_success_rate s with
      | none => rfl
      | some rate =>
        dsimp only
        split
        · rfl
        · split
          · show (speed_up s now).initial_workers = _
            unfold speed_up
            dsimp only
            split <;> rfl
          · rfl
  | forceSlow now => rfl

theorem runRate_initial_workers (s : RateState) (ops : List RateOp) :
    (runRate s ops).initial_workers = s.initial_workers := by
  induction ops generalizing s with
  | nil => rfl
  | cons op l ih =>
    show (runRate (rateStep s op) l).initial_workers = _
    rw [ih, rateStep_initial_workers]

/-- An adjustment actually happened: the call bumped the counter. -/
def rateAdjusted (s : RateState) (now : ℚ) : Prop :=
  (adjust_rate s now).1.adjustment_count = s.adjustment_count + 1

/-- A call that bumps the adjustment counter can only happen once the
configured interval has elapsed, and it stamps the call time. -/
theorem adjust_makes_interval {s : RateState} {now : ℚ}
    (h : rateAdjusted s now) :
    MIN_ADJUSTMENT_INTERVAL ≤ now - s.last_adjustment_time ∧
    (adjust_rate s now).1.last_adjustment_time = now := by
  unfold rateAdjusted at h
  unfold adjust_rate at h ⊢
  by_cases hc : ¬ (should_adjust s now = true)
  · rw [if_pos hc] at h
    exact absurd (show s.adjustment_count = s.adjustment_count + 1 from h) (by omega)
  · have hsa : MIN_ADJUSTMENT_INTERVAL ≤ now - s.last_adjustment_time := by
      have := not_not.mp hc
      simpa [should_adjust] using this
    rw [if_neg hc] at h ⊢
    refine ⟨hsa, ?_⟩
    cases hr : calculate_success_rate s with
    | none =>
      rw [hr] at h
      exact absurd (show s.adjustment_count = s.adjustment_count + 1 from h) (by omega)
    | some rate =>
      rw [hr] at h
      dsimp only at h ⊢
      by_cases hslow : rate < SLOW_DOWN_THRESHOLD
      · rw [if_pos hslow]
        rfl
      · rw [if_neg hslow] at h ⊢
        by_cases hsp : SPEED_UP_THRESHOLD < rate
        · rw [if_pos hsp] at h ⊢
          unfold speed_up at h ⊢
          dsimp only at h ⊢
          by_cases hfast : pyInt ((s.initial_workers : ℚ) * MAX_WORKER_MULTIPLIER) ≤
              s.current_workers ∧ s.current_delay ≤ MIN_DELAY
          · rw [if_pos hfast] at h
            exact absurd (show s.adjustment_count = s.adjustment_count + 1 from h) (by omega)
          · rw [if_neg hfast]
        · rw [if_neg hsp] at h
          exact absurd (show s.adjustment_count = s.adjustment_count + 1 from h) (by omega)

theorem rateStep_count_mono (s : RateState) (op : RateOp) :
    s.adjustment_count ≤ (rateStep s op).adjustment_count := by
  cases op with
  | record success now => exact le_refl _
  | adjust now =>
    show s.adjustment_count ≤ (adjust_rate s now).1.adjustment_count
    unfold adjust_rate
    split
    · exact le_refl _
    · cases calculate_success_rate s with
      | none => exact le_refl _
      | some rate =>
        dsimp only
        split
        · exact Nat.le_succ _
        · split
          · show _ ≤ (speed_up s now).adjustment_count
            unfold speed_up
            dsimp only
            split
            · exact le_refl _
            · exact Nat.le_succ _
          · exact le_refl _
  | forceSlow now => exact le_refl _

theorem runRate_count_mono (s : RateState) (ops : List RateOp) :
    s.adjustment_count ≤ (runRate s ops).adjustment_count := by
  induction ops generalizing s with
  | nil => exact le_refl _
  | cons op l ih => exact le_trans (rateStep_count_mono s op) (ih (rateStep s op))

/-- A step other than `force_slow_mode` that does not bump the adjustment
counter leaves the last-adjustment stamp alone. -/
theorem rateStep_last_of_count {s : RateState} {op : RateOp}
    (hop : ∀ t : ℚ, op ≠ RateOp.forceSlow t)
    (h : (rateStep s op).adjustment_count = s.adjustment_count) :
    (rateStep s op).last_adjustment_time = s.last_adjustment_time := by
  cases op with
  | record success now => rfl
  | adjust now =>
    show (adjust_rate s now).1.last_adjustment_time = _
    have h2 : (adjust_rate s now).1.adjustment_count = s.adjustment_count := h
    clear h
    unfold adjust_rate at h2 ⊢
    by_cases hc : ¬ (should_adjust s now = true)
    · rw [if_pos hc]
    · rw [if_neg hc] at h2 ⊢
      cases hr : calculate_success_rate s with
      | none => rfl
      | some rate =>
        rw [hr] at h2
        dsimp only at h2 ⊢
        by_cases hslow : rate < SLOW_DOWN_THRESHOLD
        · rw [if_pos hslow] at h2
          exact absurd (show s.adjustment_count + 1 = s.adjustment_count from h2) (by omega)
        · rw [if_neg hslow] at h2 ⊢
          by_cases hsp : SPEED_UP_THRESHOLD < rate
          · rw [if_pos hsp] at h2 ⊢
            unfold speed_up at h2 ⊢
            dsimp only at h2 ⊢
            by_cases hfast : pyInt ((s.initial_workers : ℚ) * MAX_WORKER_MULTIPLIER) ≤
                s.current_workers ∧ s.current_delay ≤ MIN_DELAY
            · rw [if_pos hfast]
            · rw [if_neg hfast] at h2
              exact absurd (show s.adjustment_count + 1 = s.adjustment_count from h2) (by omega)
          · rw [if_neg hsp]
  | forceSlow now => exact absurd rfl (hop now)

theorem runRate_last_of_count {s : RateState} {ops : List RateOp}
    (hops : ∀ op ∈ ops, ∀ t : ℚ, op ≠ RateOp.forceSlow t)
    (h : (runRate s ops).adjustment_count = s.adjustment_count) :
    (runRate s ops).last_adjustment_time = s.last_adjustment_time := by
  induction ops generalizing s with
  | nil => rfl
  | cons op l ih =>
    have hrun : runRate s (op :: l) = runRate (rateStep s op) l := rfl
    rw [hrun] at h ⊢
    have hc1 : (rateStep s op).adjustment_count = s.adjustment_count := by
      have m1 := rateStep_count_mono s op
      have m2 := runRate_count_mono (rateStep s op) l
      omega
    have hc2 : (runRate (rateStep s op) l).adjustment_count =
        (rateStep s op).adjustment_count := by omega
    rw [ih (fun o ho t => hops o (List.mem_cons_of_mem op ho) t) hc2]
    exact rateStep_last_of_count (hops op (List.mem_cons_self op l)) hc1

/-- Evaluation helper: when the interval has elapsed, at least 10 samples
exist and the sampled success rate is below the slow-down threshold,
`adjust_rate` performs a slow-down. -/
theorem adjust_eq_slow {s : RateState} {now : ℚ}
    (hsa : MIN_ADJUSTMENT_INTERVAL ≤ now - s.last_adjustment_time)
    (hlen : ¬ s.request_history.length < 10)
    (hrate : ((s.request_history.filter (fun r => r.1)).length : ℚ) /
      (s.request_history.length : ℚ) < SLOW_DOWN_THRESHOLD) :
    adjust_rate s now = (slow_down s now, true) := by
  unfold adjust_rate
  rw [if_neg (not_not_intro (show should_adjust s now = true from decide_eq_true hsa))]
  have hcalc : calculate_success_rate s =
      some (((s.request_history.filter (fun r => r.1)).length : ℚ) /
        (s.request_history.length : ℚ)) := by
    unfold calculate_success_rate
    rw [if_neg hlen]
  rw [hcalc]
  dsimp only
  rw [if_pos hrate]

/-- A limiter that has seen ten straight failures, constructed at time 0. -/
def c6state : RateState :=
  { initial_delay := 1
    initial_workers := 10
    current_delay := 1
    current_workers := 10
    request_history := [(false, 0), (false, 0), (false, 0), (false, 0), (false, 0),
      (false, 0), (false, 0), (false, 0), (false, 0), (false, 0)]
    last_adjustment_time := 0
    adjustment_count := 0
    slowdown_count := 0
    speedup_count := 0
    total_requests := 10
    successful_requests := 0
    failed_requests := 10 }

/-! ### Claim theorems: adaptive rate limiter -/

/-- Claim C3, counterexample.  The constructor performs no clamping, so an
initial delay of 10 s leaves `current_delay` outside `[MIN_DELAY,
MAX_DELAY]` immediately after construction, refuting the claim for
arbitrary initial configurations. -/
theorem C3_init_counterexample :
    (mkRateState 10 20 0).current_delay = 10 ∧
    ¬ (mkRateState 10 20 0).current_delay ≤ MAX_DELAY := by
  refine ⟨rfl, ?_⟩
  show ¬ (10 : ℚ) ≤ MAX_DELAY
  rw [MAX_DELAY]
  norm_num

/-- Claim C3, amended: provided the initial configuration itself satisfies
the bounds (initial delay within `[MIN_DELAY, MAX_DELAY]`, at least one
initial worker), every sequence of record_request / adjust_rate /
force_slow_mode calls keeps `current_delay ∈ [MIN_DELAY, MAX_DELAY]` and
`current_workers ∈ [MIN_WORKER_COUNT, int(initial_workers * 1.5)]`,
including immediately after construction (the empty sequence). -/
theorem C3_bounds (d0 : ℚ) (w0 : ℤ) (t0 : ℚ) (ops : List RateOp)
    (hd1 : MIN_DELAY ≤ d0) (hd2 : d0 ≤ MAX_DELAY) (hw : 1 ≤ w0) :
    MIN_DELAY ≤ (runRate (mkRateState d0 w0 t0) ops).current_delay ∧
    (runRate (mkRateState d0 w0 t0) ops).current_delay ≤ MAX_DELAY ∧
    MIN_WORKER_COUNT ≤ (runRate (mkRateState d0 w0 t0) ops).current_workers ∧
    (runRate (mkRateState d0 w0 t0) ops).current_workers ≤
      pyInt ((w0 : ℚ) * MAX_WORKER_MULTIPLIER) := by
  have hinit : RateInv (mkRateState d0 w0 t0) := by
    refine ⟨hd1, hd2, ?_, ?_, hw⟩
    · show MIN_WORKER_COUNT ≤ w0
      rw [MIN_WORKER_COUNT]
      exact hw
    · exact (pyInt_cap_ge hw).2
  obtain ⟨a, b, c, d, -⟩ := runRate_inv ops hinit
  have hiw := runRate_initial_workers (mkRateState d0 w0 t0) ops
  rw [hiw] at d
  exact ⟨a, b, c, d⟩

/-- Witness for the amended claim C3 at a concrete configuration. -/
theorem C3_bounds_witness :
    MIN_DELAY ≤ (runRate (mkRateState 1 10 0) []).current_delay ∧
    (runRate (mkRateState 1 10 0) []).current_delay ≤ MAX_DELAY ∧
    MIN_WORKER_COUNT ≤ (runRate (mkRateState 1 10 0) []).current_workers ∧
    (runRate (mkRateState 1 10 0) []).current_workers ≤
      pyInt ((10 : ℚ) * MAX_WORKER_MULTIPLIER) :=
  C3_bounds 1 10 0 [] (by rw [MIN_DELAY]; norm_num) (by rw [MAX_DELAY]; norm_num)
    (by norm_num)

/-- Claim C6: two counter-bumping adjustments are always separated by at
least MIN_ADJUSTMENT_INTERVAL (300 s): if an adjust_rate call at time t1
makes an adjustment, and after any further record_request / adjust_rate
calls that make no adjustment an adjust_rate call at time t2 makes the next
one, then t2 - t1 ≥ 300. -/
theorem C6_adjust_interval (s : RateState) (t1 t2 : ℚ) (mid : List RateOp)
    (hmid : ∀ op ∈ mid, ∀ t : ℚ, op ≠ RateOp.forceSlow t)
    (h1 : rateAdjusted s t1)
    (hcount : (runRate (adjust_rate s t1).1 mid).adjustment_count =
      (adjust_rate s t1).1.adjustment_count)
    (h2 : rateAdjusted (runRate (adjust_rate s t1).1 mid) t2) :
    MIN_ADJUSTMENT_INTERVAL ≤ t2 - t1 := by
  obtain ⟨-, hlast1⟩ := adjust_makes_interval h1
  have hlast2 := runRate_last_of_count hmid hcount
  obtain ⟨hint2, -⟩ := adjust_makes_interval h2
  rw [hlast2, hlast1] at hint2
  exact hint2

/-- Witness for claim C6: a limiter with ten failures adjusts (slows down)
at time 300 and again at time 600, and the theorem yields 300 ≤ 600-300. -/
theorem C6_adjust_interval_witness : MIN_ADJUSTMENT_INTERVAL ≤ (600 : ℚ) - 300 := by
  have heq1 : adjust_rate c6state 300 = (slow_down c6state 300, true) := by
    refine adjust_eq_slow ?_ ?_ ?_
    · rw [MIN_ADJUSTMENT_INTERVAL]
      show (300 : ℚ) ≤ 300 - c6state.last_adjustment_time
      norm_num [c6state]
    · norm_num [c6state]
    · rw [SLOW_DOWN_THRESHOLD]
      norm_num [c6state, List.filter]
  have heq2 : adjust_rate (slow_down c6state 300) 600 =
      (slow_down (slow_down c6state 300) 600, true) := by
    refine adjust_eq_slow ?_ ?_ ?_
    · rw [MIN_ADJUSTMENT_INTERVAL]
      show (300 : ℚ) ≤ 600 - (slow_down c6state 300).last_adjustment_time
      norm_num [slow_down]
    · norm_num [slow_down, c6state]
    · rw [SLOW_DOWN_THRESHOLD]
      norm_num [slow_down, c6state, List.filter]
  have h1 : rateAdjusted c6state 300 := by
    rw [rateAdjusted, heq1]
    rfl
  have h2 : rateAdjusted (runRate (adjust_rate c6state 300).1 []) 600 := by
    show rateAdjusted (adjust_rate c6state 300).1 600
    rw [rateAdjusted, heq1]
    show (adjust_rate (slow_down c6state 300) 600).1.adjustment_count = _
    rw [heq2]
    rfl
  exact C6_adjust_interval c6state 300 600 []
    (fun op hop t => absurd hop (List.not_mem_nil op)) h1 rfl h2

/-- Claim C9: under the reachable-state bounds (at least one worker, worker
count not above the cap), a speed-up with current_workers between 1 and 19
leaves the worker count unchanged — int(w * 1.05) = w there — and any
speed-up that does increase the worker count starts from at least 20
workers. -/
theorem C9_speedup_truncation (s : RateState) (now : ℚ)
    (h1 : 1 ≤ s.current_workers)
    (hcap : s.current_workers ≤ pyInt ((s.initial_workers : ℚ) * MAX_WORKER_MULTIPLIER)) :
    (s.current_workers ≤ 19 → (speed_up s now).current_workers = s.current_workers) ∧
    (s.current_workers < (speed_up s now).current_workers → 20 ≤ s.current_workers) := by
  have h0 : (0 : ℤ) ≤ s.current_workers := le_trans (by norm_num) h1
  unfold speed_up
  dsimp only
  split
  · exact ⟨fun _ => rfl, fun hlt => absurd hlt (lt_irrefl _)⟩
  · constructor
    · intro h19
      show min (pyInt ((s.current_workers : ℚ) * (1 + SPEEDUP_WORKER_INCREASE))) _ = _
      rw [pyInt_speedup_eq h0 h19]
      exact min_eq_left hcap
    · intro hlt
      have hnew : s.current_workers <
          pyInt ((s.current_workers : ℚ) * (1 + SPEEDUP_WORKER_INCREASE)) :=
        lt_of_lt_of_le hlt (min_le_left _ _)
      have hq : (0 : ℚ) ≤ (s.current_workers : ℚ) * (1 + SPEEDUP_WORKER_INCREASE) := by
        have hwq : (0 : ℚ) ≤ (s.current_workers : ℚ) := by exact_mod_cast h0
        rw [SPEEDUP_WORKER_INCREASE]
        nlinarith
      rw [pyInt_of_nonneg hq] at hnew
      have hfl : ((s.current_workers + 1 : ℤ) : ℚ) ≤
          (s.current_workers : ℚ) * (1 + SPEEDUP_WORKER_INCREASE) :=
        Int.le_floor.mp (Int.add_one_le_iff.mpr hnew)
      have : (20 : ℚ) ≤ (s.current_workers : ℚ) := by
        rw [SPEEDUP_WORKER_INCREASE] at hfl
        push_cast at hfl
        nlinarith
      exact_mod_cast this

/-- Witness for claim C9 at ten workers (cap 15): a speed-up leaves the
worker count at 10. -/
theorem C9_speedup_truncation_witness :
    ((mkRateState 1 10 0).current_workers ≤ 19 →
      (speed_up (mkRateState 1 10 0) 0).current_workers =
        (mkRateState 1 10 0).current_workers) ∧
    ((mkRateState 1 10 0).current_workers < (speed_up (mkRateState 1 10 0) 0).current_workers →
      20 ≤ (mkRateState 1 10 0).current_workers) :=
  C9_speedup_truncation (mkRateState 1 10 0) 0 (by norm_num [mkRateState])
    ((pyInt_cap_ge (show (1 : ℤ) ≤ 10 by norm_num)).2)

/-! ## scraper_rotating_residential.py -/

/-- A product record from the checkpoint JSON.  Resume only reads the url
key; the other JSON keys are modelled as an association list. -/
structure Product where
  url : String
  rest : List (String × String)

/-- Source `load_checkpoint` URL tracking: the set comprehension collecting
the url value of every checkpointed product into scraped_urls. -/
def scraped_urls_of (products : List Product) : Finset String :=
  (products.map Product.url).toFinset

/-- Source `scrape_urls` dispatch: filter out already scraped URLs, then
apply the optional target truncation (Python `if target:` is false for 0,
so a target of 0 does not truncate). -/
def scrape_urls_dispatch (scraped_urls : Finset String) (urls : List String)
    (target : Option ℕ) : List String :=
  let filtered := urls.filter (fun u => u ∉ scraped_urls)
  match target with
  | some t => if t ≠ 0 then filtered.take t else filtered
  | none => filtered

/-! ## proxy_manager.py -/

/-- A proxy dict; selection and quarantine only read the address key; the
remaining keys (urls, type, uptime, ...) are modelled as an association
list. -/
structure Proxy where
  address : String
  rest : List (String × String)
deriving DecidableEq

/-- Mutable state of `ProxyManager` relevant to selection: the full list,
the validated list, the quarantine set of addresses and the round-robin
index. -/
structure ProxyState where
  proxies : List Proxy
  working_proxies : List Proxy
  failed_proxies : Finset String
  current_index : ℕ

/-- Pool selection shared by both getters: working proxies when any exist
(Python truthiness), the full list otherwise. -/
def poolOf (s : ProxyState) : List Proxy :=
  if s.working_proxies.isEmpty then s.proxies else s.working_proxies

/-- Source `ProxyManager.get_random_proxy`.  Returns the updated state and
the candidate list from which `random.choice` picks uniformly (empty list
when Python would return None); the possible fail-open clearing of the
quarantine set is reflected in the returned state. -/
def get_random_proxy (s : ProxyState) : ProxyState × List Proxy :=
  let pool := poolOf s
  if pool.isEmpty then (s, [])
  else
    let available := pool.filter (fun p => p.address ∉ s.failed_proxies)
    if available.isEmpty then ({ s with failed_proxies := ∅ }, pool)
    else (s, available)

/-- Fallback value for list indexing; never selected because indices are
always taken modulo the length of a non-empty pool. -/
def dummyProxy : Proxy := ⟨"", []⟩

/-- The skip loop of `get_next_proxy`: while the candidate is quarantined
and fewer than `len(pool)` skips have happened, advance round-robin.  The
loop counter `attempts` (counting up to `pool.length`) is represented by
the remaining iteration budget `pool.length - attempts`. -/
def nextLoopAux (pool : List Proxy) (failed : Finset String) :
    ℕ → Proxy → ℕ → Proxy × ℕ
  | 0, p, idx => (p, idx)
  | remaining + 1, p, idx =>
    if p.address ∈ failed then
      nextLoopAux pool failed remaining (pool.getD (idx % pool.length) dummyProxy) (idx + 1)
    else (p, idx)

/-- Source `ProxyManager.get_next_proxy`: round-robin selection that skips
recently failed proxies for at most one lap, then gives up and returns the
current (possibly quarantined) candidate.  It never clears the quarantine
set. -/
def get_next_proxy (s : ProxyState) : ProxyState × Option Proxy :=
  let pool := poolOf s
  if pool.isEmpty then (s, none)
  else
    let proxy := pool.getD (s.current_index % pool.length) dummyProxy
    let r := nextLoopAux pool s.failed_proxies pool.length proxy (s.current_index + 1)
    ({ s with current_index := r.2 }, some r.1)

/-! ## utils/signal_handlers.py -/

/-- What `GracefulShutdown._signal_handler` does on one signal delivery. -/
inductive SignalAction where
  | forceExit
  | setForceFlag
  | startShutdown
deriving DecidableEq

/-- The handler flags of `GracefulShutdown`. -/
structure ShutdownState where
  shutdown_requested : Bool
  force_shutdown : Bool
  shutdown_start_time : Option ℚ

/-- State right after `GracefulShutdown.__init__`. -/
def initShutdownState : ShutdownState :=
  { shutdown_requested := false, force_shutdown := false, shutdown_start_time := none }

/-- Source `GracefulShutdown._signal_handler`: with `force_shutdown`
already set, `_force_exit()` runs (immediate `sys.exit(1)`); with only
`shutdown_requested` set, the handler merely sets `force_shutdown` and
returns; otherwise it starts the graceful shutdown sequence. -/
def signal_handler (s : ShutdownState) (now : ℚ) : ShutdownState × SignalAction :=
  if s.force_shutdown then (s, SignalAction.forceExit)
  else if s.shutdown_requested then
    ({ s with force_shutdown := true }, SignalAction.setForceFlag)
  else
    ({ s with shutdown_requested := true, shutdown_start_time := some now },
     SignalAction.startShutdown)

/-! ### Claim theorems: resume, proxy pool, shutdown -/

/-- Claim C4: with no target cap, the dispatched URL list is the input list
minus the checkpointed URLs — as a set, the set difference of input and
checkpoint — and a URL present in the checkpoint is never dispatched. -/
theorem C4_resume_set_difference (products : List Product) (urls : List String) :
    (scrape_urls_dispatch (scraped_urls_of products) urls none).toFinset =
      urls.toFinset \ scraped_urls_of products ∧
    ∀ u ∈ scraped_urls_of products,
      u ∉ scrape_urls_dispatch (scraped_urls_of products) urls none := by
  constructor
  · ext u
    simp only [scrape_urls_dispatch, List.mem_toFinset, List.mem_filter,
      Finset.mem_sdiff, decide_not, Bool.not_eq_true', decide_eq_false_iff_not]
  · intro u hu hmem
    simp only [scrape_urls_dispatch, List.mem_filter, decide_not,
      Bool.not_eq_true', decide_eq_false_iff_not] at hmem
    exact hmem.2 hu

/-- The empty pool never happens in the C5 scenario; with a non-empty pool
`get_random_proxy` always offers at least one candidate, every candidate is
unquarantined in the resulting state, and `get_next_proxy` always returns a
proxy. -/
theorem C5_failopen (s : ProxyState) (hne : ¬ (poolOf s).isEmpty) :
    (get_random_proxy s).2 ≠ [] ∧
    (∀ p ∈ (get_random_proxy s).2, p.address ∉ (get_random_proxy s).1.failed_proxies) ∧
    ((∀ p ∈ poolOf s, p.address ∈ s.failed_proxies) →
      (get_random_proxy s).1.failed_proxies = ∅) ∧
    (get_next_proxy s).2.isSome := by
  refine ⟨?_, ?_, ?_, ?_⟩
  · unfold get_random_proxy
    rw [if_neg hne]
    dsimp only
    split
    · intro hcon
      dsimp only at hcon
      rw [hcon] at hne
      exact hne rfl
    case isFalse hav =>
      intro hcon
      dsimp only at hcon
      rw [hcon] at hav
      exact hav rfl
  · unfold get_random_proxy
    rw [if_neg hne]
    dsimp only
    split
    · intro p hp
      exact Finset.not_mem_empty _
    case isFalse hav =>
      intro p hp
      have := (List.mem_filter.mp hp).2
      simpa using this
  · intro hall
    unfold get_random_proxy
    rw [if_neg hne]
    dsimp only
    split
    · rfl
    case isFalse hav =>
      exfalso
      apply hav
      rw [List.isEmpty_iff, List.filter_eq_nil_iff]
      intro p hp
      simp [hall p hp]
  · unfold get_next_proxy
    rw [if_neg hne]
    dsimp only
    rfl

def c5proxy : Proxy := ⟨"a", []⟩

/-- A one-proxy pool in which every address is quarantined. -/
def c5state : ProxyState :=
  { proxies := [c5proxy]
    working_proxies := []
    failed_proxies := {"a"}
    current_index := 0 }

/-- Claim C5, counterexample.  With every endpoint of the (non-empty) pool
marked failed, the selection call `get_next_proxy` returns an endpoint that
IS still marked failed and clears nothing — the fail-open clearing the
claim ascribes to every selection call only happens in
`get_random_proxy`. -/
theorem C5_next_counterexample :
    (get_next_proxy c5state).2 = some c5proxy ∧
    c5proxy.address ∈ (get_next_proxy c5state).1.failed_proxies ∧
    (get_next_proxy c5state).1.failed_proxies = {"a"} := by
  decide

/-- Witness for the amended claim C5 at the fully quarantined one-proxy
pool: selection still returns a candidate and the quarantine is cleared. -/
theorem C5_failopen_witness :
    (get_random_proxy c5state).2 ≠ [] ∧
    (∀ p ∈ (get_random_proxy c5state).2,
      p.address ∉ (get_random_proxy c5state).1.failed_proxies) ∧
    ((∀ p ∈ poolOf c5state, p.address ∈ c5state.failed_proxies) →
      (get_random_proxy c5state).1.failed_proxies = ∅) ∧
    (get_next_proxy c5state).2.isSome :=
  C5_failopen c5state (by decide)

/-- Claim C8: evaluation of the signal handler at the failing input.  After
a first termination signal has started the graceful shutdown sequence, a
SECOND signal does not force an exit: the handler only sets the
force_shutdown flag (which merely shortens the wait step of the ongoing
graceful sequence); only a THIRD signal reaches `_force_exit`.  This
contradicts the claim — and the handler comments and log messages — which
say a second signal during shutdown forces immediate exit. -/
theorem C8_second_signal_code_bug :
    (signal_handler (signal_handler initShutdownState 0).1 1).2 =
      SignalAction.setForceFlag ∧
    (signal_handler (signal_handler initShutdownState 0).1 1).2 ≠
      SignalAction.forceExit ∧
    (signal_handler
      (signal_handler (signal_handler initShutdownState 0).1 1).1 2).2 =
      SignalAction.forceExit := by
  refine ⟨rfl, ?_, rfl⟩
  intro hcon
  exact SignalAction.noConfusion hcon

end MroScraper
